import Mathlib

/-!
Verification development for the Swift cross-domain storage network
(package `swift`): a shallow embedding of the pair-creation,
operation-construction, node/secret and decode-handler logic, together
with theorems about the embedded definitions.

Conventions of the embedding:
* Go strings are modelled as `List Char`; Go byte slices as `List Nat`
  with every element intended to be below 256.
* A Go `time.Time` instant is modelled by `GoTime`: calendar fields plus
  the nanosecond offset within the day.  `time.Time.Before` is strictly
  monotone in the lexicographic order of these fields for calendar-valid
  instants, so `GoTime.before` is lexicographic comparison.
* Go functions returning `(T, error)` are modelled as `Except String T`,
  except where the source can return a nil value together with a nil
  error, in which case the pair of results is modelled explicitly.
* `time.Now().UTC()` is passed in as an explicit `now : GoTime`
  parameter, making the embedded functions pure.
-/

namespace Swift

/-- Model of a Go `time.Time` instant: year, month, day and the
nanosecond offset within the day.  For calendar-valid field values the
chronological order of instants coincides with the lexicographic order
of the fields, which is how `before` is defined. -/
structure GoTime where
  y : Nat
  m : Nat
  d : Nat
  nano : Nat
  deriving DecidableEq, Repr

/-- Model of `time.Time.Before`: lexicographic comparison of the
calendar fields. -/
def GoTime.before (a b : GoTime) : Bool :=
  a.y < b.y ∨ (a.y = b.y ∧ (a.m < b.m ∨ (a.m = b.m ∧
    (a.d < b.d ∨ (a.d = b.d ∧ a.nano < b.nano)))))

/-- A character that Go `time`'s `isDigit` accepts. -/
def isDigitChar (c : Char) : Bool := decide ('0' ≤ c ∧ c ≤ '9')

/-- Numeric value of a digit character. -/
def digitVal (c : Char) : Nat := c.toNat - '0'.toNat

/-- Model of the `stdLongYear` case of Go `time.Parse`: the layout
`2006` requires at least four remaining characters, the first of which
must be a digit; the first four characters are then consumed and passed
to `atoi`, which succeeds exactly when the remaining three are digits
too (a sign is impossible because the first character is a digit). -/
def parseYear : List Char → Option (Nat × List Char)
  | c1 :: c2 :: c3 :: c4 :: rest =>
    if isDigitChar c1 ∧ isDigitChar c2 ∧ isDigitChar c3 ∧ isDigitChar c4 then
      some (digitVal c1 * 1000 + digitVal c2 * 100 + digitVal c3 * 10 +
        digitVal c4, rest)
    else none
  | _ => none

/-- Model of the fixed-width two-digit field cases (`stdZeroMonth`,
`stdZeroDay`) of Go `time.Parse`: exactly two digit characters. -/
def parseTwoDigits : List Char → Option (Nat × List Char)
  | c1 :: c2 :: rest =>
    if isDigitChar c1 ∧ isDigitChar c2 then
      some (digitVal c1 * 10 + digitVal c2, rest)
    else none
  | _ => none

/-- Go `time.isLeap`. -/
def isLeap (y : Nat) : Bool := y % 4 = 0 ∧ (y % 100 ≠ 0 ∨ y % 400 = 0)

/-- Go `time.daysIn` for a month of a year. -/
def daysIn (m : Nat) (y : Nat) : Nat :=
  if m = 2 ∧ isLeap y then 29
  else [31, 28, 31, 30, 31, 30, 31, 31, 30, 31, 30, 31].getD (m - 1) 0

/-- Model of Go `time.Parse("2006-01-02", s)`: four-digit year, literal
dash, two-digit month, literal dash, two-digit day, end of input, then
the range checks `1 ≤ month ≤ 12` and `1 ≤ day ≤ daysIn(month, year)`
performed by `Parse`.  A successful parse yields the midnight-UTC
instant of the date. -/
def parseDateYMD (s : List Char) : Option GoTime :=
  match parseYear s with
  | none => none
  | some (y, r1) =>
    match r1 with
    | [] => none
    | s1 :: r2 =>
      if s1 = '-' then
        match parseTwoDigits r2 with
        | none => none
        | some (m, r3) =>
          match r3 with
          | [] => none
          | s2 :: r4 =>
            if s2 = '-' then
              match parseTwoDigits r4 with
              | none => none
              | some (d, r5) =>
                match r5 with
                | [] =>
                  if 1 ≤ m ∧ m ≤ 12 ∧ 1 ≤ d ∧ d ≤ daysIn m y then
                    some ⟨y, m, d, 0⟩
                  else none
                | _ => none
            else none
      else none

/-- The conflict-resolution policy of a pair.  The Go constants
`conflictInvalid`, `conflictAdd`, `conflictOldest` and `conflictNewest`
are declared outside the excerpted sources; modelled from the spec as an
enumeration `Add | OldestWins | NewestWins` plus the invalid value. -/
inductive Conflict where
  | invalid
  | add
  | oldest
  | newest
  deriving DecidableEq, Repr

/-- The stored key/value entry.  The Go struct `pair` is declared
outside the excerpted sources; modelled from the spec: key, value,
conflict policy, creation time and expiry date (the fields `createPair`
produces). -/
structure Pair where
  key : List Char
  value : List Char
  conflict : Conflict
  created : GoTime
  expires : GoTime
  deriving DecidableEq, Repr

/-- Whether a character is matched by `operationCharacterRegEx`, the
compiled pattern for one of the three operator characters. -/
def isOpChar (c : Char) : Bool := c = '<' ∨ c = '>' ∨ c = '+'

/-- Model of `operationCharacterRegEx.FindStringIndex`: the regular
expression is an alternation of three single-character literals, so the
leftmost match starts at the first operator character and has length
one.  `none` models the nil slice returned when there is no match. -/
def findStringIndexOp : List Char → Option (Nat × Nat)
  | [] => none
  | c :: rest =>
    if isOpChar c then some (0, 1)
    else match findStringIndexOp rest with
      | none => none
      | some (i, j) => some (i + 1, j + 1)

/-- Model of `createPair` (`store.go` area of the source): locate the
operator character, derive the conflict policy, parse the trailing
`YYYY-MM-DD` date, reject an expiry before `now`, and assemble the
pair.  `now` stands for `time.Now().UTC()`.  The Go check
`len(i) > 2` is always false (`FindStringIndex` returns a two-element
slice) and `i[1]-i[0] != 1` is kept as written.  Error strings are kept
close to the source but without the quoted interpolations. -/
def createPair (now : GoTime) (k : List Char) (v : List Char) :
    Except String Pair :=
  match findStringIndexOp k with
  | none => .error ("Key must include a + to add the value to a list " ++
      "of values, or < (oldest wins) or > (newest wins) character to " ++
      "determine how to resolve two values for the same key, followed " ++
      "by a date in YYYY-MM-DD format to indicate when the value " ++
      "expires and is automatically deleted")
  | some (i0, i1) =>
    if i1 - i0 ≠ 1 then
      .error "Key must contained only one operator character"
    else
      match conflictOf (k.getD i0 ' ') with
      | .error e => .error e
      | .ok conflict =>
        match parseDateYMD (k.drop (i0 + 1)) with
        | none => .error "parsing time as 2006-01-02: cannot parse"
        | some expires =>
          if expires.before now then
            .error "Key expiry date must be in the future"
          else
            .ok ⟨k.take i0, v, conflict, now, expires⟩
where
  /-- The `switch k[i[0]]` of `createPair`. -/
  conflictOf (c : Char) : Except String Conflict :=
    if c = '+' then .ok .add
    else if c = '<' then .ok .oldest
    else if c = '>' then .ok .newest
    else .error "Character invalid"

/-- Longest digit run at the front of a character list, and the rest. -/
def splitDigits : List Char → List Char × List Char
  | [] => ([], [])
  | c :: rest =>
    if isDigitChar c then
      let (d, r) := splitDigits rest
      (c :: d, r)
    else ([], c :: rest)

/-- Numeric value of a digit run. -/
def digitsVal (s : List Char) : Nat :=
  s.foldl (fun acc c => acc * 10 + digitVal c) 0

/-- The leading-sign split shared by the numeric parsers: consume one
leading `-` or `+`, remembering whether the value is negated. -/
def signSplit (s : List Char) : Bool × List Char :=
  match s with
  | [] => (false, s)
  | c :: rest =>
    if c = '-' then (true, rest)
    else if c = '+' then (false, rest)
    else (false, s)

/-- Model of `strconv.Atoi`: optional sign, one or more digits, nothing
else; a result outside the 64-bit signed range is an out-of-range
error. -/
def goAtoi (s : List Char) : Except String Int :=
  let (neg, digits) := signSplit s
  if digits = [] ∨ ¬ digits.all isDigitChar then
    .error "strconv.Atoi: invalid syntax"
  else
    let v : Int := if neg then -(digitsVal digits : Int) else digitsVal digits
    if v < -(2 ^ 63) ∨ 2 ^ 63 - 1 < v then
      .error "strconv.Atoi: value out of range"
    else .ok v

/-- Model of the bounce-count step of `createURL` (the
`r.Form.Get(bounces)` block): when the form value is non-empty it is
parsed with `strconv.Atoi`; a non-positive count or a count of 255 or
more is rejected, otherwise `nodeCount` becomes `byte(c)` (modelled as
`c.toNat % 256`); an empty (absent) value falls back to
`s.config.NodeCount`.  The result is the `nodeCount` the operation
receives, or the error `createURL` returns. -/
def setNodeCount (bouncesVal : List Char) (configNodeCount : Nat) :
    Except String Nat :=
  if bouncesVal ≠ [] then
    match goAtoi bouncesVal with
    | .error e => .error e
    | .ok c =>
      if c ≤ 0 then .error "Bounces must be greater than 0"
      else if c < 255 then .ok (c.toNat % 256)
      else .error ("Bounces " ++ toString c ++ " must be less than 255")
  else .ok configNodeCount

/-- Model of `strconv.ParseFloat` restricted to decimal forms, at
rational precision: optional sign, digits with an optional fractional
part (at least one digit overall), and an optional decimal exponent.
Special values and hexadecimal floats are not modelled; no claim
depends on them. -/
def goParseFloat (s : List Char) : Except String ℚ :=
  let (neg, r1) := signSplit s
  let (ip, r2) := splitDigits r1
  match r2 with
  | [] =>
    if ip = [] then .error "strconv.ParseFloat: invalid syntax"
    else goParseFloatExp neg ip [] []
  | c :: rest =>
    if c = '.' then
      let (fp, r3) := splitDigits rest
      if ip = [] ∧ fp = [] then .error "strconv.ParseFloat: invalid syntax"
      else goParseFloatExp neg ip fp r3
    else if ip = [] then .error "strconv.ParseFloat: invalid syntax"
    else goParseFloatExp neg ip [] (c :: rest)
where
  /-- The mantissa value assembled from its parts. -/
  mantissa (neg : Bool) (ip fp : List Char) : ℚ :=
    (if neg then -1 else 1) *
      ((digitsVal ip : ℚ) + (digitsVal fp : ℚ) / (10 ^ fp.length : ℚ))
  /-- The optional exponent suffix: `e` or `E`, an optional sign and at
  least one digit, consuming the whole rest of the input. -/
  goParseFloatExp (neg : Bool) (ip fp : List Char) :
      List Char → Except String ℚ
  | [] => .ok (mantissa neg ip fp)
  | e :: rest =>
    if e = 'e' ∨ e = 'E' then
      let (eneg, r4) := signSplit rest
      let (ed, r5) := splitDigits r4
      if ed = [] ∨ r5 ≠ [] then .error "strconv.ParseFloat: invalid syntax"
      else if eneg then
        .ok (mantissa neg ip fp / (10 ^ digitsVal ed : ℚ))
      else .ok (mantissa neg ip fp * (10 ^ digitsVal ed : ℚ))
    else .error "strconv.ParseFloat: invalid syntax"

/-- Model of the browser-warning step of `createURL` (the
`strconv.ParseFloat(r.Form.Get(browserWarningParam), 32)` block): a
successful parse sets the probability to the parsed value, any parse
failure (including the empty value of an absent parameter) sets it to
zero, and the request is never failed — the step returns a plain value,
not an error.  Float values are modelled at rational precision; the
`float32` narrowing of the source is not modelled. -/
def setBrowserWarning (bwVal : List Char) : ℚ :=
  match goParseFloat bwVal with
  | .ok b => b
  | .error _ => 0

/-- Byte transformation of the modelled AEAD seal: a keystream shift. -/
def sealByte (key b : Nat) : Nat := (b + key) % 256

/-- Inverse byte transformation of the modelled AEAD. -/
def openByte (key b : Nat) : Nat := (b + (256 - key % 256)) % 256

/-- Model of the `crypto` value owned by a secret.  The Go `crypto`
type (AES-GCM plus compression) is declared outside the excerpted
sources.  Modelled from the spec: a key, the fixed AEAD nonce size
(`gcm.NonceSize()`), and the randomized-nonce payload transformations
`compressAndEncrypt` / `decryptAndDecompress`, which are kept as
abstract function fields because their random nonce and compression are
outside the deterministic embedding. -/
structure CryptoModel where
  key : Nat
  nonceSize : Nat
  compressAndEncrypt : List Nat → Except String (List Nat)
  decryptAndDecompress : List Nat → Except String (List Nat)

/-- Modelled from the spec: `encryptWithNonce(plaintext, nonce)` is the
deterministic AEAD seal under the supplied nonce, used only for
scrambling; the nonce is prepended to the sealed output, which here is
an authentication tag followed by the keystream-shifted plaintext. -/
def CryptoModel.encryptWithNonce (c : CryptoModel) (pt nonce : List Nat) :
    List Nat :=
  nonce ++ (c.key + nonce.sum + pt.sum) % 256 :: pt.map (sealByte c.key)

/-- Modelled from the spec: the crypto-level `decrypt` used by
`unscramble` splits the nonce from the front of the ciphertext, opens
the body and checks the authentication tag, failing when the ciphertext
is too short or the tag does not match. -/
def CryptoModel.decrypt (c : CryptoModel) (ct : List Nat) :
    Except String (List Nat) :=
  let nonce := ct.take c.nonceSize
  match ct.drop c.nonceSize with
  | [] => .error "cipher: message authentication failed"
  | tag :: body =>
    let pt := body.map (openByte c.key)
    if tag = (c.key + nonce.sum + pt.sum) % 256 then .ok pt
    else .error "cipher: message authentication failed"

/-- Model of the `secret` struct: its creation time stamp and its bound
crypto value.  The Go struct is declared outside the excerpted sources;
modelled from the spec (`key bytes, timeStamp, crypto`). -/
structure Secret where
  timeStamp : GoTime
  crypto : CryptoModel

/-- The node roles `roleAccess` and `roleStorage`. -/
def roleAccess : Nat := 0

/-- The storage role constant, the successor of `roleAccess`. -/
def roleStorage : Nat := 1

/-- Model of the `node` struct of the source. -/
structure Node where
  network : List Char
  domain : List Char
  hash : Nat
  created : GoTime
  expires : GoTime
  role : Nat
  secrets : List Secret
  scrambler : Secret
  nonce : List Nat
  alive : Bool

/-- The loop body of `makeNonce`: fill the next `i` nonce bytes reading
the domain bytes `d` at cursor `c`, wrapping the cursor to 0 once it
reaches `len(d)` after incrementing.  `d.get? c = none` is the
out-of-range panic of `d[c]`, propagated as `none`. -/
def makeNonceLoop (d : List Nat) (c : Nat) : Nat → Option (List Nat)
  | 0 => some []
  | i + 1 =>
    match d.get? c with
    | none => none
    | some b =>
      match makeNonceLoop d (if c + 1 ≥ d.length then 0 else c + 1) i with
      | none => none
      | some l => some (b :: l)

/-- Model of `makeNonce(s, d)`: a buffer of `s.crypto.gcm.NonceSize()`
bytes filled by cycling through the bytes of `d`; `none` models the
index-out-of-range panic that `d[c]` raises when `d` is empty and the
nonce size is positive. -/
def makeNonce (s : Secret) (d : List Nat) : Option (List Nat) :=
  makeNonceLoop d 0 s.crypto.nonceSize

/-- FNV-1a over the domain bytes, the `hash/fnv` `New32a` digest used by
`newNode`. -/
def fnv32a (bs : List Nat) : Nat :=
  bs.foldl (fun h b => ((h ^^^ b) * 16777619) % 2 ^ 32) 2166136261

/-- Modelled from the spec: `newSecretFromKey(key, createdAt)` fails for
invalid key material (anything but an AES key length of 16, 24 or 32
bytes) and otherwise yields a secret time-stamped `createdAt` whose
crypto is bound to the key, with the standard 96-bit GCM nonce (twelve
bytes).  The randomized-nonce payload path of the resulting crypto is
given placeholder functions; no claim exercises it through this
constructor. -/
def newSecretFromKey (key : List Nat) (createdAt : GoTime) :
    Except String Secret :=
  if key.length = 16 ∨ key.length = 24 ∨ key.length = 32 then
    .ok ⟨createdAt,
      ⟨key.foldl (fun a b => a * 256 + b) 0, 12,
        fun _ => .error "payload path not modelled",
        fun _ => .error "payload path not modelled"⟩⟩
  else .error "crypto/aes: invalid key size"

/-- Model of `newNode`: hash the domain, build the scrambler secret from
the scramble key, and assemble the node with an empty secret sequence
and the nonce produced by `makeNonce` from the domain bytes.  The outer
`Except` carries the `newSecretFromKey` error that `newNode` returns;
the inner `Option` is `none` when `makeNonce` panics, which `newNode`
does not catch. -/
def newNode (network domain : List Char) (created expires : GoTime)
    (role : Nat) (scrambleKey : List Nat) : Except String (Option Node) :=
  match newSecretFromKey scrambleKey created with
  | .error e => .error e
  | .ok s =>
    match makeNonce s (domain.map Char.toNat) with
    | none => .ok none
    | some nonce =>
      .ok (some ⟨network, domain, fnv32a (domain.map Char.toNat), created,
        expires, role, [], s, nonce, false⟩)

/-- Model of `node.isActive`. -/
def Node.isActive (n : Node) (now : GoTime) : Bool :=
  now.before n.expires ∧ n.secrets.length > 0

/-- The loop of `node.decrypt`.  In the source the loop body reads
`b, err := s.crypto.decryptAndDecompress(d)`, a short variable
declaration that creates a fresh `err` shadowing the `var err error` of
the enclosing function; the outer `err` is therefore never assigned and
the final `return nil, err` returns a nil error.  The first component
is the plaintext (`nil` as `none`), the second the returned error. -/
def decryptLoop (secrets : List Secret) (d : List Nat) :
    Option (List Nat) × Option String :=
  match secrets with
  | [] => (none, none)
  | s :: rest =>
    match s.crypto.decryptAndDecompress d with
    | .ok b => (some b, none)
    | .error _ => decryptLoop rest d

/-- Model of `node.decrypt`: try each secret in sequence order and
return the first successful plaintext; when none succeeds, return the
nil plaintext together with the (never assigned, hence nil) outer
error. -/
def Node.decrypt (n : Node) (d : List Nat) :
    Option (List Nat) × Option String :=
  decryptLoop n.secrets d

/-- Model of `node.getSecret`: the first element of `secrets` when the
sequence is non-empty, an error otherwise. -/
def Node.getSecret (n : Node) : Except String Secret :=
  match n.secrets with
  | s :: _ => .ok s
  | [] => .error "No secrets for node"

/-- Model of `node.encrypt`: compress-and-encrypt under the secret that
`getSecret` selects. -/
def Node.encrypt (n : Node) (d : List Nat) : Except String (List Nat) :=
  match n.getSecret with
  | .error e => .error e
  | .ok s => s.crypto.compressAndEncrypt d

/-- Model of `node.addSecret`. -/
def Node.addSecret (n : Node) (s : Secret) : Node :=
  { n with secrets := n.secrets ++ [s] }

/-- The less function of `node.sortSecrets`:
`secrets[i].timeStamp.Sub(secrets[j].timeStamp) < 0`, which for
in-range instants is exactly `timeStamp[i].Before(timeStamp[j])`. -/
def secretLess (a b : Secret) : Bool := a.timeStamp.before b.timeStamp

/-- Insert a secret into a list sorted by `secretLess`. -/
def insertSecret (s : Secret) : List Secret → List Secret
  | [] => [s]
  | t :: rest =>
    if secretLess s t then s :: t :: rest else t :: insertSecret s rest

/-- A sorting of a secret list by `secretLess`.  `sort.Slice` performs
an unspecified (unstable) comparison sort; insertion sort is one
faithful realisation of the same ordering. -/
def sortSecretsList : List Secret → List Secret
  | [] => []
  | s :: rest => insertSecret s (sortSecretsList rest)

/-- Model of `node.sortSecrets`: sort the secret sequence ascending by
the `secretLess` comparison (oldest time stamp first). -/
def Node.sortSecrets (n : Node) : Node :=
  { n with secrets := sortSecretsList n.secrets }

/-- The base64url alphabet character of a 6-bit value, as used by
`base64.RawURLEncoding`. -/
def b64Char (v : Nat) : Char :=
  if v < 26 then Char.ofNat (65 + v)
  else if v < 52 then Char.ofNat (97 + (v - 26))
  else if v < 62 then Char.ofNat (48 + (v - 52))
  else if v = 62 then '-'
  else '_'

/-- The 6-bit value of a base64url alphabet character, `none` for a
character outside the alphabet. -/
def b64Val (c : Char) : Option Nat :=
  if 'A' ≤ c ∧ c ≤ 'Z' then some (c.toNat - 65)
  else if 'a' ≤ c ∧ c ≤ 'z' then some (c.toNat - 97 + 26)
  else if '0' ≤ c ∧ c ≤ '9' then some (c.toNat - 48 + 52)
  else if c = '-' then some 62
  else if c = '_' then some 63
  else none

/-- Model of `base64.RawURLEncoding.EncodeToString`: three input bytes
become four alphabet characters; a final group of one or two bytes
becomes two or three characters, with no padding. -/
def b64Encode : List Nat → List Char
  | b1 :: b2 :: b3 :: rest =>
    b64Char (b1 / 4) :: b64Char (b1 % 4 * 16 + b2 / 16) ::
      b64Char (b2 % 16 * 4 + b3 / 64) :: b64Char (b3 % 64) :: b64Encode rest
  | [b1, b2] => [b64Char (b1 / 4), b64Char (b1 % 4 * 16 + b2 / 16),
      b64Char (b2 % 16 * 4)]
  | [b1] => [b64Char (b1 / 4), b64Char (b1 % 4 * 16)]
  | [] => []

/-- Model of `base64.RawURLEncoding.DecodeString`: the inverse grouping
of `b64Encode`, failing on characters outside the alphabet or on a
leftover group of a single character. -/
def b64Decode : List Char → Except String (List Nat)
  | c1 :: c2 :: c3 :: c4 :: rest =>
    match b64Val c1, b64Val c2, b64Val c3, b64Val c4 with
    | some v1, some v2, some v3, some v4 =>
      match b64Decode rest with
      | .error e => .error e
      | .ok bs =>
        .ok ((v1 * 4 + v2 / 16) :: (v2 % 16 * 16 + v3 / 4) ::
          (v3 % 4 * 64 + v4) :: bs)
    | _, _, _, _ => .error "illegal base64 data"
  | [] => .ok []
  | [_] => .error "illegal base64 data"
  | [c1, c2] =>
    match b64Val c1, b64Val c2 with
    | some v1, some v2 => .ok [v1 * 4 + v2 / 16]
    | _, _ => .error "illegal base64 data"
  | [c1, c2, c3] =>
    match b64Val c1, b64Val c2, b64Val c3 with
    | some v1, some v2, some v3 =>
      .ok [v1 * 4 + v2 / 16, v2 % 16 * 16 + v3 / 4]
    | _, _, _ => .error "illegal base64 data"

/-- Model of `node.unscramble`: base64url-decode the token (raw, no
padding) and open it with the scrambler's crypto. -/
def Node.unscramble (n : Node) (s : List Char) : Except String (List Nat) :=
  match b64Decode s with
  | .error e => .error e
  | .ok b => n.scrambler.crypto.decrypt b

/-- Model of `node.scramble`: seal the data under the scrambler's crypto
with the node's fixed nonce and base64url-encode the result (raw, no
padding).  The scrambled string is modelled as the byte list of its
input and the character list of its output. -/
def Node.scramble (n : Node) (s : List Nat) : List Char :=
  b64Encode (n.scrambler.crypto.encryptWithNonce s n.nonce)

/-- Model of the `Results` value of `DecodeResults`.  The Go type is
declared outside the excerpted sources; modelled from the spec: the
decoded pairs (`Values`) together with the freshness verdict that
`IsTimeStampValid()` computes from the embedded write time. -/
structure ResultsModel where
  isTimeStampValid : Bool
  values : List Pair

/-- An HTTP response as the decode handler produces it: either
`returnAPIError` with a status code and message, or a successful body
with a content type. -/
inductive HttpResponse where
  | apiError (status : Nat) (message : String)
  | body (content : List Nat) (contentType : String)

/-- The collaborators and request data of `HandlerDecodeAsJSON`, all of
which are declared outside the excerpted sources: the `r.ParseForm()`
outcome, the `s.getAccessAllowed` verdict, the `getAccessNode` lookup,
the `data` form value, the `DecodeResults` decoder and `json.Marshal`
(modelled from the spec as abstract fallible functions), and the
`w.Write` outcome. -/
structure DecodeEnv where
  parseFormOk : Bool
  accessAllowed : Bool
  accessNode : Except String Node
  dataParam : List Char
  decodeResults : List Nat → Except String ResultsModel
  marshal : List Pair → Except String (List Nat)
  writeOk : Bool

/-- Model of `HandlerDecodeAsJSON` (`handlerDecodeAsJSON.go`): parse the
form, check access, resolve the access node, base64url-decode the
`data` parameter, decrypt it with the node, decode the plaintext into
results, reject stale results, and marshal the values to JSON.  Each
early return maps to the status code the source passes to
`returnAPIError`: 500 for form parsing, node lookup, marshalling and
write failures, 401 for a disallowed caller, 400 for undecodable,
undecryptable or expired input.  The nil-plaintext check after
`n.decrypt` is the `d == nil` branch of the source. -/
def handlerDecodeAsJSON (env : DecodeEnv) : HttpResponse :=
  if env.parseFormOk = false then .apiError 500 "ParseForm failed"
  else if env.accessAllowed = false then .apiError 401 "Not authorized"
  else
    match env.accessNode with
    | .error e => .apiError 500 e
    | .ok n =>
      match b64Decode env.dataParam with
      | .error e => .apiError 400 e
      | .ok inBytes =>
        match n.decrypt inBytes with
        | (d, errDecrypt) =>
          match errDecrypt with
          | some e => .apiError 400 e
          | none =>
            match d with
            | none => .apiError 400 "Could not decrypt input"
            | some dBytes =>
              match env.decodeResults dBytes with
              | .error e => .apiError 400 e
              | .ok a =>
                if a.isTimeStampValid = false then
                  .apiError 400 "Results expired and can no longer be decrypted"
                else
                  match env.marshal a.values with
                  | .error e => .apiError 500 e
                  | .ok js =>
                    if env.writeOk then .body js "application/json"
                    else .apiError 500 "write failed"

/-- Whether an `Except` value is an error. -/
def exceptIsError {ε α : Type _} : Except ε α → Bool
  | .error _ => true
  | .ok _ => false

/-- A concrete crypto value whose payload decryption always fails. -/
def failingCrypto : CryptoModel :=
  ⟨1, 12, fun _ => .error "payload",
    fun _ => .error "cipher: message authentication failed"⟩

/-- A concrete crypto value whose payload decryption always yields
`[9]`. -/
def okCrypto : CryptoModel :=
  ⟨1, 12, fun _ => .error "payload", fun _ => .ok [9]⟩

/-- A concrete scrambler secret with a three-byte nonce size. -/
def scramblerSecret : Secret :=
  ⟨⟨2020, 1, 1, 0⟩, ⟨7777, 3, fun _ => .error "payload",
    fun _ => .error "payload"⟩⟩

/-- A concrete storage node holding the given secrets. -/
def mkNode (secrets : List Secret) : Node :=
  ⟨['n'], ['a', 'b'], 0, ⟨2020, 1, 1, 0⟩, ⟨2030, 1, 1, 0⟩, roleStorage,
    secrets, scramblerSecret, [97, 98, 97], false⟩

/-- The form key `age+2099-01-01` of the spec's worked example. -/
def ageFutureKey : List Char :=
  ['a', 'g', 'e', '+', '2', '0', '9', '9', '-', '0', '1', '-', '0', '1']

/-- The form key `age+2000-01-01` with an expiry in the past. -/
def agePastKey : List Char :=
  ['a', 'g', 'e', '+', '2', '0', '0', '0', '-', '0', '1', '-', '0', '1']

/-- The form key `age2099-01-01` with no operator character. -/
def ageNoOpKey : List Char :=
  ['a', 'g', 'e', '2', '0', '9', '9', '-', '0', '1', '-', '0', '1']

/-- The form key `a+b+2099-01-01` with two operator characters. -/
def twoOpKey : List Char :=
  ['a', '+', 'b', '+', '2', '0', '9', '9', '-', '0', '1', '-', '0', '1']

theorem GoTime.before_asymm {a b : GoTime} (h : a.before b = true) :
    b.before a = false := by
  simp only [GoTime.before, decide_eq_true_eq] at h ⊢
  simp only [decide_eq_false_iff_not]
  omega

theorem GoTime.before_trans {a b c : GoTime} (h1 : a.before b = true)
    (h2 : b.before c = true) : a.before c = true := by
  simp only [GoTime.before, decide_eq_true_eq] at h1 h2 ⊢
  omega

/-- C1: `node.decrypt` does try each secret in sequence and return the
first successful plaintext, but when no secret succeeds it returns a
nil plaintext together with a nil error — the `b, err :=` inside the
loop shadows the outer `err`, so the last underlying decryption error
is never surfaced, contradicting the claim (and the spec's `decrypt`
contract).  Evaluated at a node whose second secret succeeds and at a
node none of whose secrets succeed. -/
theorem decrypt_first_success_but_nil_error :
    (mkNode [⟨⟨2020, 1, 1, 0⟩, failingCrypto⟩,
      ⟨⟨2021, 1, 1, 0⟩, okCrypto⟩]).decrypt [1, 2, 3] = (some [9], none) ∧
    (mkNode [⟨⟨2020, 1, 1, 0⟩, failingCrypto⟩,
      ⟨⟨2021, 1, 1, 0⟩, failingCrypto⟩]).decrypt [1, 2, 3] = (none, none) :=
  ⟨rfl, rfl⟩

/-- C2: after `sortSecrets` (ascending by time stamp) the secret at
index 0 — the one `getSecret` returns and `encrypt` uses — is the
oldest secret, not the newest: on a node holding secrets time-stamped
2001 and 2000, sorting and then `getSecret` yields the secret stamped
2000, which is strictly older than 2001.  This contradicts the claim
(the spec itself flags the sort direction as a latent defect). -/
theorem getSecret_after_sort_is_oldest :
    ((mkNode [⟨⟨2001, 1, 1, 0⟩, failingCrypto⟩,
      ⟨⟨2000, 1, 1, 0⟩, failingCrypto⟩]).sortSecrets.getSecret).map
        Secret.timeStamp = .ok ⟨2000, 1, 1, 0⟩ ∧
    GoTime.before ⟨2000, 1, 1, 0⟩ ⟨2001, 1, 1, 0⟩ = true :=
  ⟨rfl, by decide⟩

/-- C6: the bounce-count step of `createURL` accepts exactly the
parsed values strictly between 0 and 255 as the node count, rejects a
non-positive count with `Bounces must be greater than 0`, rejects 255
or more with the `must be less than 255` error, and falls back to the
configured node count when the parameter is absent. -/
theorem setNodeCount_bounces (bv : List Char) (config : Nat) :
    (bv = [] → setNodeCount bv config = .ok config) ∧
    (∀ c : Int, goAtoi bv = .ok c →
      (c ≤ 0 → setNodeCount bv config =
        .error "Bounces must be greater than 0") ∧
      (0 < c → c < 255 → setNodeCount bv config = .ok c.toNat) ∧
      (255 ≤ c → setNodeCount bv config =
        .error ("Bounces " ++ toString c ++ " must be less than 255"))) := by
  constructor
  · intro h
    subst h
    simp [setNodeCount]
  · intro c hc
    have hbv : bv ≠ [] := by
      intro h
      subst h
      simp [goAtoi, signSplit] at hc
    refine ⟨?_, ?_, ?_⟩
    · intro hle
      simp [setNodeCount, hbv, hc, hle]
    · intro hpos hlt
      have h1 : ¬ c ≤ 0 := by omega
      have h2 : c.toNat % 256 = c.toNat := Nat.mod_eq_of_lt (by omega)
      simp [setNodeCount, hbv, hc, h1, hlt, h2]
    · intro hge
      have h1 : ¬ c ≤ 0 := by omega
      have h2 : ¬ c < 255 := by omega
      simp [setNodeCount, hbv, hc, h1, h2]

/-- Witness for C6 at the concrete bounce values 0, 300, absent and
10. -/
theorem setNodeCount_bounces_witness :
    setNodeCount ['0'] 5 = .error "Bounces must be greater than 0" ∧
    setNodeCount ['3', '0', '0'] 5 =
      .error ("Bounces " ++ toString (300 : Int) ++
        " must be less than 255") ∧
    setNodeCount [] 7 = .ok 7 ∧
    setNodeCount ['1', '0'] 5 = .ok ((10 : Int).toNat) :=
  ⟨((setNodeCount_bounces ['0'] 5).2 0 rfl).1 (by decide),
    ((setNodeCount_bounces ['3', '0', '0'] 5).2 300 rfl).2.2 (by decide),
    (setNodeCount_bounces [] 7).1 rfl,
    ((setNodeCount_bounces ['1', '0'] 5).2 10 rfl).2.1 (by decide)
      (by decide)⟩

/-- C8: the browser-warning step of `createURL` is best-effort — a
parse failure (including the empty value of an absent parameter) sets
the probability to 0 without failing the request (the step returns a
plain value, with no error outcome), and a successful parse sets it to
the parsed value. -/
theorem setBrowserWarning_best_effort (s : List Char) :
    (∀ e, goParseFloat s = .error e → setBrowserWarning s = 0) ∧
    (∀ q, goParseFloat s = .ok q → setBrowserWarning s = q) ∧
    (s = [] → setBrowserWarning s = 0) := by
  refine ⟨?_, ?_, ?_⟩
  · intro e he
    simp [setBrowserWarning, he]
  · intro q hq
    simp [setBrowserWarning, hq]
  · intro h
    subst h
    rfl

/-- Witness for C8 at an unparsable value, a parsable value and the
absent (empty) value. -/
theorem setBrowserWarning_best_effort_witness :
    setBrowserWarning ['a', 'b', 'c'] = 0 ∧
    setBrowserWarning ['0', '.', '5'] = (1 : ℚ) / 2 ∧
    setBrowserWarning [] = 0 := by
  refine ⟨(setBrowserWarning_best_effort ['a', 'b', 'c']).1
      "strconv.ParseFloat: invalid syntax" rfl,
    ?_,
    (setBrowserWarning_best_effort []).2.2 rfl⟩
  refine (setBrowserWarning_best_effort ['0', '.', '5']).2.1 ((1 : ℚ) / 2) ?_
  have h0 : signSplit ['0', '.', '5'] = (false, ['0', '.', '5']) := by decide
  have h1 : splitDigits ['0', '.', '5'] = (['0'], ['.', '5']) := by decide
  have h2 : splitDigits ['5'] = (['5'], []) := by decide
  have h3 : digitsVal ['5'] = 5 := by decide
  have h4 : digitsVal ['0'] = 0 := by decide
  simp +decide only [goParseFloat, goParseFloat.goParseFloatExp,
    goParseFloat.mantissa, h0, h1, h2, h3, h4]
  norm_num

/-- The list read at an in-range cursor is defined. -/
theorem get?_of_lt {l : List Nat} {c : Nat} (h : c < l.length) :
    l.get? c = some (l.getD c 0) := by
  induction l generalizing c with
  | nil => simp at h
  | cons a t ih =>
    cases c with
    | zero => rfl
    | succ c =>
      simp only [List.get?_cons_succ, List.getD_cons_succ]
      exact ih (by simpa using h)

/-- The filling loop of `makeNonce` with a non-empty source: it yields
`k` bytes, the byte at offset `i` being the source byte at
`(c + i) % length`. -/
theorem makeNonceLoop_spec (d : List Nat) (hd : 0 < d.length) :
    ∀ k c, c < d.length → ∃ l, makeNonceLoop d c k = some l ∧
      l.length = k ∧
      ∀ i, i < k → l.get? i = some (d.getD ((c + i) % d.length) 0) := by
  intro k
  induction k with
  | zero =>
    intro c _
    exact ⟨[], rfl, rfl, fun i hi => absurd hi (Nat.not_lt_zero i)⟩
  | succ k ih =>
    intro c hc
    have hget := get?_of_lt hc
    have hmod : (if c + 1 ≥ d.length then 0 else c + 1) =
        (c + 1) % d.length := by
      by_cases hge : c + 1 ≥ d.length
      · have heq : c + 1 = d.length := by omega
        simp [hge, heq, Nat.mod_self]
      · rw [if_neg hge]
        exact (Nat.mod_eq_of_lt (by omega)).symm
    obtain ⟨l, hl, hlen, hidx⟩ :=
      ih ((c + 1) % d.length) (Nat.mod_lt _ hd)
    refine ⟨d.getD c 0 :: l, ?_, by simp [hlen], ?_⟩
    · simp only [makeNonceLoop, hget, hmod, hl]
    · intro i hi
      cases i with
      | zero =>
        simp [Nat.mod_eq_of_lt hc]
      | succ i =>
        have h1 := hidx i (by omega)
        have h2 : (c + 1) % d.length + i = (c + 1) % d.length + i := rfl
        simp only [List.get?_cons_succ]
        rw [h1]
        have h3 : ((c + 1) % d.length + i) % d.length =
            (c + (i + 1)) % d.length := by
          rw [Nat.mod_add_mod]
          congr 1
          omega
        rw [h3]

/-- C10: `makeNonce` on a non-empty domain yields a buffer of exactly
the AEAD nonce size whose byte at index `i` is the domain byte at
`i mod length`; on an empty domain with a positive nonce size the
indexing `d[c]` is out of range, so `makeNonce` (and hence `newNode`
called with an empty domain and a well-formed scramble key, whose
scrambler carries the standard twelve-byte nonce size) does not produce
a node. -/
theorem makeNonce_cycles_domain (s : Secret) (d : List Nat) :
    (d ≠ [] → ∃ l, makeNonce s d = some l ∧
      l.length = s.crypto.nonceSize ∧
      ∀ i, i < s.crypto.nonceSize →
        l.get? i = some (d.getD (i % d.length) 0)) ∧
    (d = [] → 0 < s.crypto.nonceSize → makeNonce s d = none) ∧
    (∀ net cr ex ro key,
      (List.length key = 16 ∨ List.length key = 24 ∨ List.length key = 32) →
      newNode net [] cr ex ro key = .ok none) := by
  refine ⟨?_, ?_, ?_⟩
  · intro hne
    have hd : 0 < d.length := by
      cases d with
      | nil => exact absurd rfl hne
      | cons a l => simp
    obtain ⟨l, hl, hlen, hidx⟩ :=
      makeNonceLoop_spec d hd s.crypto.nonceSize 0 hd
    exact ⟨l, hl, hlen, fun i hi => by simpa using hidx i hi⟩
  · intro hde hpos
    subst hde
    unfold makeNonce
    cases hns : s.crypto.nonceSize with
    | zero => omega
    | succ k => simp [makeNonceLoop]
  · intro net cr ex ro key hkey
    simp [newNode, newSecretFromKey, hkey, makeNonce, makeNonceLoop]

/-- Witness for C10 at a three-byte nonce size with a two-byte domain,
an empty domain, and `newNode` with an empty domain string. -/
theorem makeNonce_cycles_domain_witness :
    (∃ l, makeNonce scramblerSecret [7, 8] = some l ∧
      l.length = scramblerSecret.crypto.nonceSize ∧
      ∀ i, i < scramblerSecret.crypto.nonceSize →
        l.get? i = some ([7, 8].getD (i % [7, 8].length) 0)) ∧
    makeNonce scramblerSecret [] = none ∧
    newNode ['n'] [] ⟨2020, 1, 1, 0⟩ ⟨2030, 1, 1, 0⟩ 1
      (List.replicate 16 0) = .ok none :=
  ⟨(makeNonce_cycles_domain scramblerSecret [7, 8]).1 (by decide),
    (makeNonce_cycles_domain scramblerSecret []).2.1 rfl (by decide),
    (makeNonce_cycles_domain scramblerSecret []).2.2 ['n'] ⟨2020, 1, 1, 0⟩
      ⟨2030, 1, 1, 0⟩ 1 (List.replicate 16 0) (by decide)⟩

theorem digit_not_op {c : Char} (h : isDigitChar c = true) :
    isOpChar c = false := by
  by_contra hop
  rw [Bool.not_eq_false] at hop
  simp only [isOpChar, decide_eq_true_eq] at hop
  rcases hop with rfl | rfl | rfl <;> exact absurd h (by decide)

theorem conflictOf_of_isOp {c : Char} (h : isOpChar c = true) :
    ∃ conf, createPair.conflictOf c = .ok conf := by
  simp only [isOpChar, decide_eq_true_eq] at h
  rcases h with rfl | rfl | rfl <;> exact ⟨_, rfl⟩

theorem findStringIndexOp_none_iff (k : List Char) :
    findStringIndexOp k = none ↔ k.filter isOpChar = [] := by
  induction k with
  | nil => simp [findStringIndexOp]
  | cons c rest ih =>
    by_cases hc : isOpChar c
    · simp [findStringIndexOp, hc, List.filter_cons]
    · simp only [findStringIndexOp, hc, if_neg, Bool.false_eq_true,
        List.filter_cons]
      rw [if_neg (by simp [hc])]
      cases hfr : findStringIndexOp rest with
      | none => simp [← ih, hfr]
      | some ij =>
        obtain ⟨i, j⟩ := ij
        simp only [hfr]
        simp [← ih, hfr]

theorem findStringIndexOp_some (k : List Char) :
    ∀ i j, findStringIndexOp k = some (i, j) →
      j = i + 1 ∧ i < k.length ∧ isOpChar (k.getD i ' ') = true := by
  induction k with
  | nil =>
    intro i j h
    simp [findStringIndexOp] at h
  | cons c rest ih =>
    intro i j h
    by_cases hc : isOpChar c
    · simp only [findStringIndexOp, if_pos hc, Option.some.injEq,
        Prod.mk.injEq] at h
      obtain ⟨hi, hj⟩ := h
      subst hi
      subst hj
      exact ⟨rfl, by simp, by simpa using hc⟩
    · simp only [findStringIndexOp, if_neg hc] at h
      cases hfr : findStringIndexOp rest with
      | none => rw [hfr] at h; simp at h
      | some ij =>
        obtain ⟨i0, j0⟩ := ij
        rw [hfr] at h
        simp only [Option.some.injEq, Prod.mk.injEq] at h
        obtain ⟨hi, hj⟩ := h
        subst hi
        subst hj
        obtain ⟨h1, h2, h3⟩ := ih i0 j0 hfr
        exact ⟨by omega, by simp; omega, by simpa using h3⟩

theorem findStringIndexOp_drop_count (k : List Char) :
    ∀ i j, findStringIndexOp k = some (i, j) →
      2 ≤ (k.filter isOpChar).length →
      (k.drop (i + 1)).filter isOpChar ≠ [] := by
  induction k with
  | nil =>
    intro i j h
    simp [findStringIndexOp] at h
  | cons c rest ih =>
    intro i j h h2
    by_cases hc : isOpChar c
    · simp only [findStringIndexOp, if_pos hc, Option.some.injEq,
        Prod.mk.injEq] at h
      obtain ⟨hi, _⟩ := h
      subst hi
      simp only [List.filter_cons, if_pos (by simpa using hc),
        List.length_cons] at h2
      simp only [List.drop_succ_cons, List.drop_zero]
      intro hnil
      rw [hnil] at h2
      simp at h2
    · simp only [findStringIndexOp, if_neg hc] at h
      cases hfr : findStringIndexOp rest with
      | none => rw [hfr] at h; simp at h
      | some ij =>
        obtain ⟨i0, j0⟩ := ij
        rw [hfr] at h
        simp only [Option.some.injEq, Prod.mk.injEq] at h
        obtain ⟨hi, _⟩ := h
        subst hi
        have hfe : (c :: rest).filter isOpChar = rest.filter isOpChar := by
          simp [List.filter_cons, hc]
        rw [hfe] at h2
        simpa using ih i0 j0 hfr h2

theorem parseYear_some (s : List Char) (y : Nat) (r : List Char)
    (h : parseYear s = some (y, r)) :
    ∃ c1 c2 c3 c4, s = c1 :: c2 :: c3 :: c4 :: r ∧
      isDigitChar c1 = true ∧ isDigitChar c2 = true ∧
      isDigitChar c3 = true ∧ isDigitChar c4 = true := by
  match s with
  | [] => simp [parseYear] at h
  | [_] => simp [parseYear] at h
  | [_, _] => simp [parseYear] at h
  | [_, _, _] => simp [parseYear] at h
  | c1 :: c2 :: c3 :: c4 :: rest =>
    by_cases hd : isDigitChar c1 ∧ isDigitChar c2 ∧ isDigitChar c3 ∧
        isDigitChar c4
    · simp only [parseYear, if_pos hd, Option.some.injEq,
        Prod.mk.injEq] at h
      obtain ⟨_, hr⟩ := h
      subst hr
      exact ⟨c1, c2, c3, c4, rfl, hd.1, hd.2.1, hd.2.2.1, hd.2.2.2⟩
    · simp [parseYear, hd] at h

theorem parseTwoDigits_some (s : List Char) (m : Nat) (r : List Char)
    (h : parseTwoDigits s = some (m, r)) :
    ∃ c1 c2, s = c1 :: c2 :: r ∧
      isDigitChar c1 = true ∧ isDigitChar c2 = true := by
  match s with
  | [] => simp [parseTwoDigits] at h
  | [_] => simp [parseTwoDigits] at h
  | c1 :: c2 :: rest =>
    by_cases hd : isDigitChar c1 ∧ isDigitChar c2
    · simp only [parseTwoDigits, if_pos hd, Option.some.injEq,
        Prod.mk.injEq] at h
      obtain ⟨_, hr⟩ := h
      subst hr
      exact ⟨c1, c2, rfl, hd.1, hd.2⟩
    · simp [parseTwoDigits, hd] at h

theorem parseDateYMD_chars (s : List Char) (t : GoTime)
    (h : parseDateYMD s = some t) :
    ∀ c ∈ s, isDigitChar c = true ∨ c = '-' := by
  unfold parseDateYMD at h
  cases hy : parseYear s with
  | none => rw [hy] at h; simp at h
  | some yr =>
    obtain ⟨y, r1⟩ := yr
    rw [hy] at h
    obtain ⟨c1, c2, c3, c4, hs, hd1, hd2, hd3, hd4⟩ :=
      parseYear_some s y r1 hy
    cases r1 with
    | nil => simp at h
    | cons s1 r2 =>
      by_cases hs1 : s1 = '-'
      case neg => simp [hs1] at h
      subst hs1
      simp only [if_pos rfl] at h
      cases hm : parseTwoDigits r2 with
      | none => rw [hm] at h; simp at h
      | some mr =>
        obtain ⟨m, r3⟩ := mr
        rw [hm] at h
        obtain ⟨d1, d2, hr2, hm1, hm2⟩ := parseTwoDigits_some r2 m r3 hm
        cases r3 with
        | nil => simp at h
        | cons s2 r4 =>
          by_cases hs2 : s2 = '-'
          case neg => simp [hs2] at h
          subst hs2
          simp only [if_pos rfl] at h
          cases hdd : parseTwoDigits r4 with
          | none => rw [hdd] at h; simp at h
          | some dr =>
            obtain ⟨d, r5⟩ := dr
            rw [hdd] at h
            obtain ⟨e1, e2, hr4, he1, he2⟩ := parseTwoDigits_some r4 d r5 hdd
            cases r5 with
            | cons a r6 => simp at h
            | nil =>
              subst hr4
              subst hr2
              subst hs
              intro c hc
              simp only [List.mem_cons, List.not_mem_nil, or_false] at hc
              rcases hc with rfl | rfl | rfl | rfl | rfl | rfl | rfl | rfl |
                rfl | rfl
              · exact Or.inl hd1
              · exact Or.inl hd2
              · exact Or.inl hd3
              · exact Or.inl hd4
              · exact Or.inr rfl
              · exact Or.inl hm1
              · exact Or.inl hm2
              · exact Or.inr rfl
              · exact Or.inl he1
              · exact Or.inl he2

theorem parseDateYMD_of_op_none (s : List Char)
    (hop : s.filter isOpChar ≠ []) : parseDateYMD s = none := by
  cases hp : parseDateYMD s with
  | none => rfl
  | some t =>
    exfalso
    have hex : ∃ c ∈ s, isOpChar c = true := by
      rcases hfe : s.filter isOpChar with _ | ⟨c, rest⟩
      · exact absurd hfe hop
      · have : c ∈ s.filter isOpChar := by rw [hfe]; simp
        rw [List.mem_filter] at this
        exact ⟨c, this.1, this.2⟩
    obtain ⟨c, hmem, hcop⟩ := hex
    rcases parseDateYMD_chars s t hp c hmem with hd | hd
    · rw [digit_not_op hd] at hcop
      exact Bool.false_ne_true hcop
    · subst hd
      exact absurd hcop (by decide)

/-- C3: `createPair` fails whenever the form key contains no operator
character (the regular expression finds no match) and also whenever it
contains more than one (the first match is taken and the trailing
substring then still contains an operator character, so it cannot parse
as a `YYYY-MM-DD` date and `createPair` returns the parse error). -/
theorem createPair_op_count_errors (now : GoTime) (k v : List Char) :
    ((k.filter isOpChar).length = 0 →
      exceptIsError (createPair now k v) = true) ∧
    (2 ≤ (k.filter isOpChar).length →
      exceptIsError (createPair now k v) = true) := by
  constructor
  · intro h0
    have hnil : k.filter isOpChar = [] := List.length_eq_zero.mp h0
    have hn : findStringIndexOp k = none :=
      (findStringIndexOp_none_iff k).mpr hnil
    simp [createPair, hn, exceptIsError]
  · intro h2
    cases hf : findStringIndexOp k with
    | none => simp [createPair, hf, exceptIsError]
    | some ij =>
      obtain ⟨i, j⟩ := ij
      obtain ⟨hj, hlt, hop⟩ := findStringIndexOp_some k i j hf
      subst hj
      have hdrop : (k.drop (i + 1)).filter isOpChar ≠ [] :=
        findStringIndexOp_drop_count k i (i + 1) hf h2
      have hparse : parseDateYMD (k.drop (i + 1)) = none :=
        parseDateYMD_of_op_none _ hdrop
      simp only [createPair, hf, hparse, exceptIsError]
      rw [if_neg (by omega : ¬ i + 1 - i ≠ 1)]
      rcases hcc : createPair.conflictOf (k.getD i ' ') with e | cf <;>
        simp [hcc]

/-- Witness for C3 at the keys `age2099-01-01` (no operator) and
`a+b+2099-01-01` (two operators). -/
theorem createPair_op_count_errors_witness :
    exceptIsError (createPair ⟨2026, 1, 1, 0⟩ ageNoOpKey ['3', '0']) =
      true ∧
    exceptIsError (createPair ⟨2026, 1, 1, 0⟩ twoOpKey ['3', '0']) =
      true :=
  ⟨(createPair_op_count_errors ⟨2026, 1, 1, 0⟩ ageNoOpKey ['3', '0']).1
      (by decide),
    (createPair_op_count_errors ⟨2026, 1, 1, 0⟩ twoOpKey ['3', '0']).2
      (by decide)⟩

theorem take_at_append (l1 : List Char) (c : Char) (l2 : List Char) :
    (l1 ++ c :: l2).take l1.length = l1 := by
  induction l1 with
  | nil => rfl
  | cons a t ih => simp [ih]

theorem drop_after_append (l1 : List Char) (c : Char) (l2 : List Char) :
    (l1 ++ c :: l2).drop (l1.length + 1) = l2 := by
  induction l1 with
  | nil => rfl
  | cons a t ih => simp [ih]

theorem getElem_at_append (l1 : List Char) (c : Char) (l2 : List Char) :
    ∀ h : l1.length < (l1 ++ c :: l2).length,
      (l1 ++ c :: l2)[l1.length] = c := by
  induction l1 with
  | nil => intro h; rfl
  | cons a t ih =>
    intro h
    simpa using ih (by simp)

theorem getD_at_append (l1 : List Char) (c : Char) (l2 : List Char) :
    (l1 ++ c :: l2).getD l1.length ' ' = c := by
  induction l1 with
  | nil => rfl
  | cons a t ih => simpa [List.getD_cons_succ] using ih

theorem findStringIndexOp_append (name : List Char) (c : Char)
    (rest : List Char) (hname : name.filter isOpChar = [])
    (hc : isOpChar c = true) :
    findStringIndexOp (name ++ c :: rest) =
      some (name.length, name.length + 1) := by
  induction name with
  | nil => simp [findStringIndexOp, hc]
  | cons a t ih =>
    have ha : isOpChar a = false := by
      by_contra hcon
      rw [Bool.not_eq_false] at hcon
      simp [List.filter_cons, hcon] at hname
    have ht : t.filter isOpChar = [] := by
      simpa [List.filter_cons, ha] using hname
    simp [findStringIndexOp, ha, ih ht]

/-- C4: for a well-formed key `name<op><YYYY-MM-DD>` (the name free of
operator characters, the trailing part parsing as a date) whose date is
in the future, `createPair` produces the pair whose key is the
substring before the operator, whose value is the supplied value, whose
creation time is `now`, whose expiry is the parsed date, and whose
conflict policy is Add for `+`, OldestWins for `<` and NewestWins for
`>`. -/
theorem createPair_wellformed (now : GoTime) (name : List Char) (c : Char)
    (dateStr v : List Char) (expires : GoTime)
    (hname : name.filter isOpChar = [])
    (hop : isOpChar c = true)
    (hdate : parseDateYMD dateStr = some expires)
    (hfuture : now.before expires = true) :
    createPair now (name ++ c :: dateStr) v =
      .ok ⟨name, v,
        if c = '+' then .add else if c = '<' then .oldest else .newest,
        now, expires⟩ := by
  have hf := findStringIndexOp_append name c dateStr hname hop
  have hdrop := drop_after_append name c dateStr
  have htake := take_at_append name c dateStr
  have hgd := getD_at_append name c dateStr
  have hnb : expires.before now = false := GoTime.before_asymm hfuture
  have hge := getElem_at_append name c dateStr
  simp only [isOpChar, decide_eq_true_eq] at hop
  rcases hop with rfl | rfl | rfl <;>
    simp +decide [createPair, hf, hgd, hge, hdrop, htake, hdate, hnb,
      createPair.conflictOf]

/-- Witness for C4: the spec's worked example
`createPair("age+2099-01-01", "30")` evaluated at a 2026 creation
instant. -/
theorem createPair_wellformed_witness :
    createPair ⟨2026, 1, 1, 0⟩ ageFutureKey ['3', '0'] =
      .ok ⟨['a', 'g', 'e'], ['3', '0'], .add, ⟨2026, 1, 1, 0⟩,
        ⟨2099, 1, 1, 0⟩⟩ :=
  createPair_wellformed ⟨2026, 1, 1, 0⟩ ['a', 'g', 'e'] '+'
    ['2', '0', '9', '9', '-', '0', '1', '-', '0', '1'] ['3', '0']
    ⟨2099, 1, 1, 0⟩ (by decide) (by decide) (by decide) (by decide)

/-- C5 counterexample: at a current time of exactly midnight
2099-01-01, the key `age+2099-01-01` parses to an expiry equal to `now`
— not strictly after it — yet `createPair` succeeds, because the source
only rejects an expiry that is `Before` now.  The key contains exactly
one operator character. -/
theorem createPair_expiry_equal_now_accepted :
    GoTime.before ⟨2099, 1, 1, 0⟩ ⟨2099, 1, 1, 0⟩ = false ∧
    (ageFutureKey.filter isOpChar).length = 1 ∧
    createPair ⟨2099, 1, 1, 0⟩ ageFutureKey ['3', '0'] =
      .ok ⟨['a', 'g', 'e'], ['3', '0'], .add, ⟨2099, 1, 1, 0⟩,
        ⟨2099, 1, 1, 0⟩⟩ :=
  ⟨by decide, by decide, rfl⟩

/-- C5 as amended: for a key with exactly one operator character,
`createPair` parses the substring after the operator as a `YYYY-MM-DD`
date and fails whenever that substring is unparsable or the parsed date
is strictly before the current time (the source accepts a date equal to
the current instant). -/
theorem createPair_single_op_date_check (now : GoTime) (name : List Char)
    (c : Char) (rest v : List Char)
    (hname : name.filter isOpChar = [])
    (hop : isOpChar c = true)
    (hrest : rest.filter isOpChar = []) :
    (parseDateYMD rest = none →
      exceptIsError (createPair now (name ++ c :: rest) v) = true) ∧
    (∀ t, parseDateYMD rest = some t → t.before now = true →
      exceptIsError (createPair now (name ++ c :: rest) v) = true) := by
  have hf := findStringIndexOp_append name c rest hname hop
  have hdrop := drop_after_append name c rest
  have hgd := getD_at_append name c rest
  have hge := getElem_at_append name c rest
  obtain ⟨conf, hconf⟩ := conflictOf_of_isOp hop
  constructor
  · intro hp
    simp [createPair, hf, hgd, hge, hdrop, hconf, hp, exceptIsError]
  · intro t hp hb
    simp [createPair, hf, hgd, hge, hdrop, hconf, hp, hb, exceptIsError]

/-- Witness for the amended C5: `age+2000-01-01` (exactly one operator,
expiry strictly before a 2026 current time) is rejected. -/
theorem createPair_single_op_date_check_witness :
    exceptIsError (createPair ⟨2026, 1, 1, 0⟩
      (['a', 'g', 'e'] ++ '+' ::
        ['2', '0', '0', '0', '-', '0', '1', '-', '0', '1']) ['3', '0']) =
      true :=
  (createPair_single_op_date_check ⟨2026, 1, 1, 0⟩ ['a', 'g', 'e'] '+'
    ['2', '0', '0', '0', '-', '0', '1', '-', '0', '1'] ['3', '0']
    (by decide) (by decide) (by decide)).2 ⟨2000, 1, 1, 0⟩ (by decide)
    (by decide)

theorem b64Val_b64Char : ∀ v, v < 64 → b64Val (b64Char v) = some v := by
  decide

theorem b64_decode_encode (bs : List Nat) (h : ∀ b ∈ bs, b < 256) :
    b64Decode (b64Encode bs) = .ok bs := by
  match bs with
  | [] => rfl
  | [b1] =>
    have h1 : b1 < 256 := h b1 (by simp)
    have v1 := b64Val_b64Char (b1 / 4) (by omega)
    have v2 := b64Val_b64Char (b1 % 4 * 16) (by omega)
    simp only [b64Encode, b64Decode, v1, v2]
    simp only [Except.ok.injEq, List.cons.injEq, and_true]
    omega
  | [b1, b2] =>
    have h1 : b1 < 256 := h b1 (by simp)
    have h2 : b2 < 256 := h b2 (by simp)
    have v1 := b64Val_b64Char (b1 / 4) (by omega)
    have v2 := b64Val_b64Char (b1 % 4 * 16 + b2 / 16) (by omega)
    have v3 := b64Val_b64Char (b2 % 16 * 4) (by omega)
    simp only [b64Encode, b64Decode, v1, v2, v3]
    simp only [Except.ok.injEq, List.cons.injEq, and_true]
    omega
  | b1 :: b2 :: b3 :: rest =>
    have h1 : b1 < 256 := h b1 (by simp)
    have h2 : b2 < 256 := h b2 (by simp)
    have h3 : b3 < 256 := h b3 (by simp)
    have ih := b64_decode_encode rest (fun b hb => h b (by simp [hb]))
    have v1 := b64Val_b64Char (b1 / 4) (by omega)
    have v2 := b64Val_b64Char (b1 % 4 * 16 + b2 / 16) (by omega)
    have v3 := b64Val_b64Char (b2 % 16 * 4 + b3 / 64) (by omega)
    have v4 := b64Val_b64Char (b3 % 64) (by omega)
    simp only [b64Encode, b64Decode, v1, v2, v3, v4, ih]
    simp only [Except.ok.injEq, List.cons.injEq, and_true]
    omega
termination_by bs.length

theorem open_seal {key b : Nat} (h : b < 256) :
    openByte key (sealByte key b) = b := by
  unfold openByte sealByte
  omega

theorem openBody_sealBody (key : Nat) (pt : List Nat)
    (h : ∀ b ∈ pt, b < 256) :
    (pt.map (sealByte key)).map (openByte key) = pt := by
  induction pt with
  | nil => rfl
  | cons a t ih =>
    simp only [List.map_cons, List.cons.injEq]
    exact ⟨open_seal (h a (by simp)),
      ih (fun b hb => h b (by simp [hb]))⟩

theorem encryptWithNonce_decrypt (c : CryptoModel) (pt nonce : List Nat)
    (hlen : nonce.length = c.nonceSize) (hpt : ∀ b ∈ pt, b < 256) :
    c.decrypt (c.encryptWithNonce pt nonce) = .ok pt := by
  unfold CryptoModel.decrypt CryptoModel.encryptWithNonce
  have htake : (nonce ++ (c.key + nonce.sum + pt.sum) % 256 ::
      pt.map (sealByte c.key)).take c.nonceSize = nonce := by
    rw [← hlen, List.take_left]
  have hdrop : (nonce ++ (c.key + nonce.sum + pt.sum) % 256 ::
      pt.map (sealByte c.key)).drop c.nonceSize =
      (c.key + nonce.sum + pt.sum) % 256 :: pt.map (sealByte c.key) := by
    rw [← hlen, List.drop_left]
  simp [htake, hdrop, openBody_sealBody c.key pt hpt]

/-- C7, with the AEAD modelled from the spec: scrambling is a pure
function of the scrambler secret, the fixed node nonce and the data —
two nodes agreeing on those produce the same token, and no randomness
enters — and unscrambling a scrambled value returns it exactly.  The
hypotheses state that the node's fixed nonce has the scrambler's nonce
size (as `makeNonce` guarantees) and that data and nonce are byte
valued. -/
theorem scramble_deterministic_roundtrip (n n2 : Node) (D : List Nat)
    (hlen : n.nonce.length = n.scrambler.crypto.nonceSize)
    (hD : ∀ b ∈ D, b < 256)
    (hnb : ∀ b ∈ n.nonce, b < 256)
    (hsc : n2.scrambler = n.scrambler) (hnn : n2.nonce = n.nonce) :
    n.unscramble (n.scramble D) = .ok D ∧ n2.scramble D = n.scramble D := by
  constructor
  · have hct : ∀ b ∈ n.scrambler.crypto.encryptWithNonce D n.nonce,
        b < 256 := by
      intro b hb
      simp only [CryptoModel.encryptWithNonce, List.mem_append,
        List.mem_cons, List.mem_map] at hb
      rcases hb with hb | hb | ⟨a, ha, rfl⟩
      · exact hnb b hb
      · omega
      · unfold sealByte
        omega
    simp only [Node.unscramble, Node.scramble,
      b64_decode_encode _ hct]
    exact encryptWithNonce_decrypt n.scrambler.crypto D n.nonce hlen hD
  · simp [Node.scramble, hsc, hnn]

/-- Witness for C7: a concrete node (three-byte nonce `[97, 98, 97]`)
and a second node with different secrets but the same scrambler and
nonce, on the data `[10, 200, 30]`. -/
theorem scramble_deterministic_roundtrip_witness :
    (mkNode []).unscramble ((mkNode []).scramble [10, 200, 30]) =
      .ok [10, 200, 30] ∧
    (mkNode [⟨⟨2021, 1, 1, 0⟩, okCrypto⟩]).scramble [10, 200, 30] =
      (mkNode []).scramble [10, 200, 30] :=
  scramble_deterministic_roundtrip (mkNode [])
    (mkNode [⟨⟨2021, 1, 1, 0⟩, okCrypto⟩]) [10, 200, 30] rfl (by decide)
    (by decide) rfl rfl

/-- C9: the decode-as-JSON handler's status mapping — decoded results
whose time stamp is invalid are answered with the 400 `Results expired`
error and never with a body (no partial result); a base64 failure, a
decrypt error and an undecryptable (nil) plaintext are 400; a
disallowed caller is 401; form-parse, node-lookup and marshalling
failures are 500. -/
theorem handlerDecodeAsJSON_statuses (env : DecodeEnv) (n : Node)
    (bs d : List Nat) (a : ResultsModel) :
    (env.parseFormOk = false →
      handlerDecodeAsJSON env = .apiError 500 "ParseForm failed") ∧
    (env.parseFormOk = true → env.accessAllowed = false →
      handlerDecodeAsJSON env = .apiError 401 "Not authorized") ∧
    (∀ e, env.parseFormOk = true → env.accessAllowed = true →
      env.accessNode = .error e →
      handlerDecodeAsJSON env = .apiError 500 e) ∧
    (∀ e, env.parseFormOk = true → env.accessAllowed = true →
      env.accessNode = .ok n → b64Decode env.dataParam = .error e →
      handlerDecodeAsJSON env = .apiError 400 e) ∧
    (∀ e, env.parseFormOk = true → env.accessAllowed = true →
      env.accessNode = .ok n → b64Decode env.dataParam = .ok bs →
      (n.decrypt bs).2 = some e →
      handlerDecodeAsJSON env = .apiError 400 e) ∧
    (env.parseFormOk = true → env.accessAllowed = true →
      env.accessNode = .ok n → b64Decode env.dataParam = .ok bs →
      n.decrypt bs = (none, none) →
      handlerDecodeAsJSON env = .apiError 400 "Could not decrypt input") ∧
    (∀ e, env.parseFormOk = true → env.accessAllowed = true →
      env.accessNode = .ok n → b64Decode env.dataParam = .ok bs →
      n.decrypt bs = (some d, none) → env.decodeResults d = .error e →
      handlerDecodeAsJSON env = .apiError 400 e) ∧
    (env.parseFormOk = true → env.accessAllowed = true →
      env.accessNode = .ok n → b64Decode env.dataParam = .ok bs →
      n.decrypt bs = (some d, none) → env.decodeResults d = .ok a →
      a.isTimeStampValid = false →
      handlerDecodeAsJSON env =
        .apiError 400 "Results expired and can no longer be decrypted" ∧
      ∀ content ct, handlerDecodeAsJSON env ≠ .body content ct) ∧
    (∀ e, env.parseFormOk = true → env.accessAllowed = true →
      env.accessNode = .ok n → b64Decode env.dataParam = .ok bs →
      n.decrypt bs = (some d, none) → env.decodeResults d = .ok a →
      a.isTimeStampValid = true → env.marshal a.values = .error e →
      handlerDecodeAsJSON env = .apiError 500 e) := by
  refine ⟨?_, ?_, ?_, ?_, ?_, ?_, ?_, ?_, ?_⟩
  · intro h1
    simp [handlerDecodeAsJSON, h1]
  · intro h1 h2
    simp [handlerDecodeAsJSON, h1, h2]
  · intro e h1 h2 h3
    simp [handlerDecodeAsJSON, h1, h2, h3]
  · intro e h1 h2 h3 h4
    simp [handlerDecodeAsJSON, h1, h2, h3, h4]
  · intro e h1 h2 h3 h4 h5
    rcases hd : n.decrypt bs with ⟨d0, e0⟩
    rw [hd] at h5
    simp at h5
    subst h5
    simp [handlerDecodeAsJSON, h1, h2, h3, h4, hd]
  · intro h1 h2 h3 h4 h5
    simp [handlerDecodeAsJSON, h1, h2, h3, h4, h5]
  · intro e h1 h2 h3 h4 h5 h6
    simp [handlerDecodeAsJSON, h1, h2, h3, h4, h5, h6]
  · intro h1 h2 h3 h4 h5 h6 h7
    constructor
    · simp [handlerDecodeAsJSON, h1, h2, h3, h4, h5, h6, h7]
    · intro content ct
      simp [handlerDecodeAsJSON, h1, h2, h3, h4, h5, h6, h7]
  · intro e h1 h2 h3 h4 h5 h6 h7 h8
    simp [handlerDecodeAsJSON, h1, h2, h3, h4, h5, h6, h7, h8]

/-- A concrete node whose single secret decrypts everything to `[5]`. -/
def c9Node : Node :=
  mkNode [⟨⟨2020, 1, 1, 0⟩,
    ⟨1, 12, fun _ => .error "payload", fun _ => .ok [5]⟩⟩]

/-- A concrete environment whose decoded results are expired. -/
def c9Env : DecodeEnv :=
  ⟨true, true, .ok c9Node, [], fun _ => .ok ⟨false, []⟩,
    fun _ => .ok [], true⟩

/-- Witness for C9: in the expired-results environment the handler
answers 400 `Results expired`. -/
theorem handlerDecodeAsJSON_statuses_witness :
    handlerDecodeAsJSON c9Env =
      .apiError 400 "Results expired and can no longer be decrypted" :=
  ((handlerDecodeAsJSON_statuses c9Env c9Node [] [5] ⟨false, []⟩).2.2.2.2.2.2.2.1
    rfl rfl rfl rfl rfl rfl rfl).1

end Swift
